import Mathlib

/-!
# Verification of the ccache cache lookup and population engine

A shallow embedding of `src/ccache.c` (ccache 2.x/3.0 era, 2196 lines).
Pure fragments of the C code are translated into executable Lean functions;
the streaming hash is modelled by the exact byte sequence fed to it
(`List Char`), filesystem interaction by explicit oracle records, and
process-level effects (`exit`, `failed()`/re-exec, returning to the caller)
by explicit outcome datatypes.
-/

namespace Ccache

/-! ## String helpers mirroring the C string functions -/

/-- The NUL byte that terminates C strings. -/
def chNUL : Char := Char.ofNat 0

/-- `strncmp(s, p, strlen(p)) == 0`: does `s` start with `p`. -/
def strStarts (s p : String) : Bool := p.data.isPrefixOf s.data

/-- `s + n` on a C string: drop the first `n` bytes. -/
def strDrop (s : String) (n : Nat) : String := String.mk (s.data.drop n)

/-- `strlen`. -/
def strLen (s : String) : Nat := s.data.length

/-- `s[i]` on a NUL-terminated C string buffer holding `s`: indices
`0 .. strlen s` are in bounds, index `strlen s` is the terminating NUL.
Reads past the buffer are undefined behaviour in C; the model returns NUL
there, and out-of-bounds accesses are tracked separately where they matter. -/
def cstrGet (s : String) (i : Nat) : Char := s.data.getD i chNUL

/-! ## Hash primitive model

`hash_string s` feeds the bytes of `s` including the terminating NUL;
`hash_delimiter label` feeds `"\0" ++ label ++ "\0"` (hashutil.c, per the
spec of the hash primitive wrapper, section 4.1).  A hash state is
identified with the list of bytes streamed into it, since the digest is a
function of exactly those bytes. -/

def delimBytes (label : String) : List Char := chNUL :: (label.data ++ [chNUL])

def stringBytes (s : String) : List Char := s.data ++ [chNUL]

/-! ## calculate_object_hash: the argument loop (ccache.c lines 969-1028)

The loop walks `args->argv[1..]`, skipping `-L` (and its argument) in both
modes and, in preprocessor mode only, the preprocessor-only options; a
`--specs=FILE` argument whose file stats hashes the file contents instead
of the token.  All other arguments are hashed as
`hash_delimiter "arg"; hash_string arg`. -/

/-- Filesystem oracle for the `--specs=` branch: whether `stat` succeeds
and the bytes `hash_file` would stream for a path. -/
structure SpecsFS where
  statOk : String → Bool
  contents : String → List Char

/-- The fifteen spaced-form options skipped (together with their following
argument) from the preprocessor-mode hash, ccache.c lines 986-1000. -/
def spacedSkipOpts : List String :=
  ["-D", "-I", "-U", "-idirafter", "-imacros", "-imultilib", "-include",
   "-iprefix", "-iquote", "-isysroot", "-isystem", "-iwithprefix",
   "-iwithprefixbefore", "-nostdinc", "-nostdinc++"]

/-- Bytes contributed by one argument that was not skipped
(ccache.c lines 1014-1027). -/
def hashArgBody (fs : SpecsFS) (a : String) : List Char :=
  if strStarts a "--specs=" && fs.statOk (strDrop a 8) then
    delimBytes "specs" ++ fs.contents (strDrop a 8)
  else
    delimBytes "arg" ++ stringBytes a

/-- The argument loop of `calculate_object_hash` (ccache.c lines 970-1028)
over `argv[1..]`, as the bytes it feeds to the hash.  The two-deep match
mirrors the C tests `i < args->argc - 1` (a following argument exists). -/
def hashArgsLoop (fs : SpecsFS) (directMode : Bool) : List String → List Char
  | [] => []
  | a :: rest =>
    match rest with
    | [] =>
      if strStarts a "-L" then []
      else if !directMode &&
          (strStarts a "-D" || strStarts a "-I" || strStarts a "-U") then []
      else hashArgBody fs a
    | b :: rest2 =>
      if a = "-L" then hashArgsLoop fs directMode rest2
      else if strStarts a "-L" then hashArgsLoop fs directMode (b :: rest2)
      else if !directMode && decide (a ∈ spacedSkipOpts) then
        hashArgsLoop fs directMode rest2
      else if !directMode &&
          (strStarts a "-D" || strStarts a "-I" || strStarts a "-U") then
        hashArgsLoop fs directMode (b :: rest2)
      else hashArgBody fs a ++ hashArgsLoop fs directMode (b :: rest2)

/-- Bytes fed to the hash by the argument section of
`calculate_object_hash` for a full argument vector (`argv[0]` is the
compiler name and is not hashed here: the loop starts at `i = 1`). -/
def calculateObjectHashArgBytes (fs : SpecsFS) (directMode : Bool)
    (argv : List String) : List Char :=
  hashArgsLoop fs directMode argv.tail

/-- A filesystem oracle on which every `stat` fails; used for concrete
evaluations that exercise no `--specs=` argument. -/
def fs0 : SpecsFS := ⟨fun _ => false, fun _ => []⟩

/-! ## Sloppiness, file hashes and the include-file registry -/

/-- The three recognised sloppiness bits (`CCACHE_SLOPPINESS`), modelled
as named flags rather than a bitmask (the numeric bit values live in
ccache.h, which is not part of src/). -/
structure Sloppiness where
  fileMacro : Bool
  includeFileMtime : Bool
  timeMacros : Bool

/-- `struct file_hash`: a digest plus the total byte count of the
producing hash. -/
structure FileHash where
  hash : List Nat
  size : Nat
deriving DecidableEq

/-- Oracle describing what `open`/`fstat`/`mmap`/`hash_source_code_string`
observe for one include-file path in `remember_include_file`. -/
structure FileInfo where
  openOk : Bool
  fstatOk : Bool
  isDir : Bool
  mtime : Int
  size : Nat
  mmapOk : Bool
  hashError : Bool
  hashFoundTime : Bool
  fhash : FileHash

/-- Per-run global state consulted by `remember_include_file`. -/
structure RunEnv where
  inputFile : String
  sloppy : Sloppiness
  timeOfCompilation : Int
  fileInfo : String → FileInfo

/-- The two globals `remember_include_file` mutates: `enable_direct` and
the `included_files` hashtable (`none` models the NULL pointer). -/
structure PPState where
  enableDirect : Bool
  includedFiles : Option (List (String × FileHash))

/-- `remember_include_file` (ccache.c lines 320-406).  The ignore cases
leave the state unchanged; the failure cases additionally clear
`enable_direct`; on success the path and its hash are inserted. -/
def remember_include_file (env : RunEnv) (st : PPState) (path : String)
    (pathLen : Nat) : PPState :=
  match st.includedFiles with
  | none => st
  | some files =>
    if 2 ≤ pathLen ∧ cstrGet path 0 = '<' ∧ cstrGet path (pathLen - 1) = '>' then
      st
    else if path = env.inputFile then st
    else if (files.find? (fun pr => pr.1 == path)).isSome then st
    else
      let fi := env.fileInfo path
      if !fi.openOk then { st with enableDirect := false }
      else if !fi.fstatOk then { st with enableDirect := false }
      else if fi.isDir then st
      else if !env.sloppy.includeFileMtime &&
          decide (env.timeOfCompilation ≤ fi.mtime) then
        { st with enableDirect := false }
      else if 0 < fi.size && !fi.mmapOk then { st with enableDirect := false }
      else if fi.hashError || fi.hashFoundTime then
        { st with enableDirect := false }
      else { st with includedFiles := some ((path, fi.fhash) :: files) }

/-! ## Base-directory path rewriting -/

def splitSlashAux : List Char → List Char → List (List Char)
  | [], acc => [acc.reverse]
  | c :: rest, acc =>
    if c = Char.ofNat 47 then acc.reverse :: splitSlashAux rest []
    else splitSlashAux rest (c :: acc)

/-- Split a path into its non-empty components. -/
def pathComponents (s : String) : List (List Char) :=
  (splitSlashAux s.data []).filter (fun c => !c.isEmpty)

/-- Drop the longest common prefix of two component lists. -/
def dropCommonComps :
    List (List Char) → List (List Char) → List (List Char) × List (List Char)
  | a :: as, b :: bs =>
    if a = b then dropCommonComps as bs else (a :: as, b :: bs)
  | as, bs => (as, bs)

def joinSlash : List (List Char) → List Char
  | [] => []
  | [c] => c
  | c :: rest => c ++ Char.ofNat 47 :: joinSlash rest

/-- Modelled from the spec: `get_relative_path` lives in util.c, which is
not part of src/.  Per the spec (section 3, "Paths ... are made relative
to the configured base directory"; section 8, scenario 4) it computes the
path of `toPath` relative to the directory `fromDir`: the shared leading
components are dropped, each remaining component of `fromDir` becomes
`..`, and the remaining components of `toPath` follow. -/
def get_relative_path (fromDir toPath : String) : String :=
  let pr := dropCommonComps (pathComponents fromDir) (pathComponents toPath)
  let comps :=
    List.replicate pr.1.length [Char.ofNat 46, Char.ofNat 46] ++ pr.2
  if comps.isEmpty then String.mk [Char.ofNat 46]
  else String.mk (joinSlash comps)

/-- `make_relative_path` (ccache.c lines 412-423): rewrite `path`
relative to the working directory when the base directory is configured
and is a prefix of `path`. -/
def make_relative_path (baseDir : Option String) (cwd : String)
    (path : String) : String :=
  match baseDir with
  | none => path
  | some b => if strStarts path b then get_relative_path cwd path else path

/-! ## process_preprocessed_file (ccache.c lines 434-528)

The function walks the memory-mapped preprocessed output with two
pointers `p` (start of the pending unhashed region) and `q` (scan
position), feeding the pending bytes and each rewritten include path to
the hash, and calling `remember_include_file` on each extracted path
while direct mode is enabled. -/

def chHashSign : Char := Char.ofNat 35
def chQuote : Char := Char.ofNat 34
def chNewline : Char := Char.ofNat 10
def chSpace : Char := Char.ofNat 32
def chDigit0 : Char := Char.ofNat 48
def chDigit9 : Char := Char.ofNat 57
def chLowL : Char := Char.ofNat 108
def chLowI : Char := Char.ofNat 105
def chLowN : Char := Char.ofNat 110
def chLowE : Char := Char.ofNat 101

/-- Read a byte of the mapped file (all accesses made by the scanner are
within `[0, size)` thanks to the `q < end - 7` loop guard). -/
def mchar (data : List Char) (i : Nat) : Char := data.getD i chNUL

/-- The test at ccache.c lines 486-492: a `# N "..."` (GCC) or
`#line N "..."` (HP) directive starts at offset `q`. -/
def isDirectiveAt (data : List Char) (q : Nat) : Prop :=
  mchar data q = chHashSign ∧
    ((mchar data (q+1) = chSpace ∧ chDigit0 ≤ mchar data (q+2) ∧
        mchar data (q+2) ≤ chDigit9) ∨
      (mchar data (q+1) = chLowL ∧ mchar data (q+2) = chLowI ∧
        mchar data (q+3) = chLowN ∧ mchar data (q+4) = chLowE ∧
        mchar data (q+5) = chSpace)) ∧
    (q = 0 ∨ mchar data (q-1) = chNewline)

instance (data : List Char) (q : Nat) : Decidable (isDirectiveAt data q) := by
  unfold isDirectiveAt
  infer_instance

/-- `while (q < end && *q != '"') q++`: the index of the first quote at
or after `q`, or the file size when there is none. -/
def findQuote (data : List Char) (q : Nat) : Nat :=
  match (data.drop q).findIdx? (fun c => c == chQuote) with
  | some i => q + i
  | none => data.length

/-- The bytes at offsets `[a, b)` of the mapped file. -/
def slice (data : List Char) (a b : Nat) : List Char :=
  (data.drop a).take (b - a)

/-- Configuration the scanner reads besides the file contents. -/
structure ScanCtx where
  baseDir : Option String
  cwd : String
  env : RunEnv

/-- Result of a scan: the bytes fed to the hash, the final
`enable_direct` / `included_files` state, whether parsing succeeded
(ccache.c line 500 returns 0 on a missing closing context), and the
`(path, path_len)` argument pairs passed to `remember_include_file`. -/
structure ScanResult where
  trace : List Char
  st : PPState
  ok : Bool
  rememberCalls : List (String × Nat)

/-- The scanning loop of `process_preprocessed_file` (ccache.c lines
468-525), including the final `hash_buffer(hash, p, end - p)`.  `fuel`
bounds the number of loop iterations: every iteration strictly increases
`q` and the loop runs only while `q + 7 < data.length`, so
`data.length + 1` iterations always suffice; the fuel-exhaustion branch
(unreachable from `process_preprocessed_file`) flushes the tail exactly
like normal loop exit. -/
def scanAux (ctx : ScanCtx) (data : List Char) :
    Nat → Nat → Nat → PPState → ScanResult
  | 0, _, p, st => ⟨slice data p data.length, st, true, []⟩
  | fuel + 1, q, p, st =>
    if q + 7 < data.length then
      if isDirectiveAt data q then
        let qB := findQuote data q + 1
        if data.length ≤ qB then ⟨[], st, false, []⟩
        else
          let qC := findQuote data qB
          let path :=
            make_relative_path ctx.baseDir ctx.cwd (String.mk (slice data qB qC))
          let st2 :=
            if st.enableDirect then
              remember_include_file ctx.env st path (qC - qB)
            else st
          let calls := if st.enableDirect then [(path, qC - qB)] else []
          let rest := scanAux ctx data fuel qC qC st2
          ⟨slice data p qB ++ stringBytes path ++ rest.trace, rest.st, rest.ok,
            calls ++ rest.rememberCalls⟩
      else scanAux ctx data fuel (q + 1) p st
    else ⟨slice data p data.length, st, true, []⟩

/-- `process_preprocessed_file` on an already-mapped file: create the
`included_files` table when direct mode is enabled (ccache.c lines
459-462), then run the scanning loop from the start of the file. -/
def process_preprocessed_file (ctx : ScanCtx) (data : List Char)
    (st0 : PPState) : ScanResult :=
  let st1 :=
    if st0.enableDirect then { st0 with includedFiles := some [] } else st0
  scanAux ctx data (data.length + 1) 0 0 st1

/-- In-bounds predicate for the angle-bracket test at ccache.c line 334:
`path[0]` is always within the NUL-terminated buffer, and
`path[path_len - 1]` is read only when `path_len >= 2` and
`path[0] == '<'`; it is within the buffer (whose last valid index,
holding the terminating NUL, is `strlen path`) exactly when
`path_len - 1 ≤ strlen path`. -/
def bracketAccessSafe (path : String) (pathLen : Nat) : Bool :=
  if 2 ≤ pathLen ∧ cstrGet path 0 = Char.ofNat 60 then
    decide (pathLen - 1 ≤ strLen path)
  else true

/-! ## from_cache (ccache.c lines 1077-1264)

`from_cache` either returns to its caller (treating the situation as a
miss), exits the process with status 0 after serving the cached result,
or routes to `failed()` (the fallback executor, which never returns).
The filesystem outcomes of the individual `stat`/`link`/`copy_file`
calls are oracle inputs; the hard-link-versus-copy choice
(`CCACHE_HARDLINK` and compression) only selects which system call
produces that outcome and is folded into the oracle. -/

inductive FromcacheCallMode
  | direct
  | cpp
  | compiled
deriving DecidableEq

/-- Outcome of `link()` or `copy_file()` towards the user's output. -/
inductive CopyResult
  | ok
  | enoent
  | otherErr
deriving DecidableEq

/-- Environment and filesystem oracle for one `from_cache` call. -/
structure FCEnv where
  mode : FromcacheCallMode
  recache : Bool
  readonly : Bool
  generatingDependencies : Bool
  outputIsDevNull : Bool
  cachedObjExists : Bool
  cachedDepExists : Bool
  copyObjResult : CopyResult
  copyDepResult : CopyResult
  enableDirect : Bool
  includedFiles : Option (List (String × FileHash))

inductive FCOutcome
  | ret
  | exited
  | fallback
deriving DecidableEq

structure FCResult where
  outcome : FCOutcome
  manifestPutCalled : Bool
  unlinkedCachedObj : Bool
  unlinkedCachedStderr : Bool
  unlinkedCachedDep : Bool
deriving DecidableEq

/-- `from_cache` (ccache.c lines 1077-1264).  Storing the dependency file
in cpp mode (lines 1186-1197) continues even on error, the mtime
refreshes and the stderr forwarding have no branches, and the
`manifest_put` return value only affects logging, so none of them appear
as outcomes. -/
def from_cache (e : FCEnv) (putObjectInManifest : Bool) : FCResult :=
  if e.mode ≠ FromcacheCallMode.compiled ∧ e.recache = true then
    ⟨FCOutcome.ret, false, false, false, false⟩
  else if e.cachedObjExists = false then
    ⟨FCOutcome.ret, false, false, false, false⟩
  else if (e.generatingDependencies = true ∧ e.mode = FromcacheCallMode.direct) ∧
      e.cachedDepExists = false then
    ⟨FCOutcome.ret, false, false, false, false⟩
  else if e.outputIsDevNull = false ∧ e.copyObjResult = CopyResult.enoent then
    ⟨FCOutcome.ret, false, true, true, true⟩
  else if e.outputIsDevNull = false ∧ e.copyObjResult = CopyResult.otherErr then
    ⟨FCOutcome.fallback, false, false, false, false⟩
  else if (e.generatingDependencies = true ∧ e.mode = FromcacheCallMode.direct) ∧
      e.copyDepResult = CopyResult.enoent then
    ⟨FCOutcome.ret, false, true, true, true⟩
  else if (e.generatingDependencies = true ∧ e.mode = FromcacheCallMode.direct) ∧
      e.copyDepResult = CopyResult.otherErr then
    ⟨FCOutcome.fallback, false, false, false, false⟩
  else
    ⟨FCOutcome.exited,
      e.enableDirect && putObjectInManifest && e.includedFiles.isSome &&
        !e.readonly,
      false, false, false⟩

/-! ## to_cache (ccache.c lines 583-750)

Runs the real compiler and stores its output; modelled from the point
where the compiler has run (`execute` at line 613) with `status` its exit
code.  The filesystem oracle fields record the results of the
`stat`/`open`/`access`/`move_file` calls in source order. -/

structure TCEnv where
  stdoutStatOk : Bool
  stdoutSize : Nat
  status : Nat
  cppStderrPresent : Bool
  mergeOpensOk : Bool
  stderrOpenOk : Bool
  outputIsDevNull : Bool
  tmpObjReadable : Bool
  moveOutputOk : Bool
  errnoEnoent : Bool
  objStatOk : Bool
  objSize : Nat
  stderrStatOk : Bool
  stderrSize : Nat
  moveStderrToCacheOk : Bool
  moveObjToCacheOk : Bool
  finalObjStatOk : Bool

inductive TCExit
  | exited (code : Nat)
  | fallback
  | ret
deriving DecidableEq

/-- What `to_cache` did: how it left the process, whether the compiler's
(merged) stderr was written to file descriptor 2, and which files were
moved into the cache. -/
structure TCResult where
  exit : TCExit
  stderrForwarded : Bool
  storedObj : Bool
  storedStderr : Bool
deriving DecidableEq

/-- `to_cache` after `execute` (ccache.c lines 616-750). -/
def to_cache (e : TCEnv) : TCResult :=
  if e.stdoutStatOk = false ∨ e.stdoutSize ≠ 0 then
    ⟨TCExit.fallback, false, false, false⟩
  else if e.cppStderrPresent = true ∧ e.mergeOpensOk = false then
    ⟨TCExit.fallback, false, false, false⟩
  else if e.status ≠ 0 then
    if e.stderrOpenOk = true ∧
        (e.outputIsDevNull = true ∨
          (e.tmpObjReadable = true ∧ e.moveOutputOk = true) ∨
          e.errnoEnoent = true) then
      ⟨TCExit.exited e.status, true, false, false⟩
    else ⟨TCExit.fallback, false, false, false⟩
  else if e.objStatOk = false then ⟨TCExit.fallback, false, false, false⟩
  else if e.objSize = 0 then ⟨TCExit.fallback, false, false, false⟩
  else if e.stderrStatOk = false then ⟨TCExit.fallback, false, false, false⟩
  else if 0 < e.stderrSize ∧ e.moveStderrToCacheOk = false then
    ⟨TCExit.fallback, false, false, false⟩
  else if e.moveObjToCacheOk = false then
    ⟨TCExit.fallback, false, false, decide (0 < e.stderrSize)⟩
  else if e.finalObjStatOk = false then
    ⟨TCExit.fallback, false, true, decide (0 < e.stderrSize)⟩
  else ⟨TCExit.ret, false, true, decide (0 < e.stderrSize)⟩

/-! ## The driver around the two hash attempts (ccache.c lines 1891-1958)

After `calculate_common_hash`, the driver optionally performs the direct
(manifest) attempt, then always performs the preprocessor attempt, then
calls `from_cache(FROMCACHE_CPP_MODE, put_object_in_manifest)`.  Whether
the direct-mode `from_cache` call exits the process is an oracle input
(`directServes`); `directLookup` is the object hash obtained from the
manifest (`none` both when the manifest had no match and when the direct
attempt aborted on a time macro). -/

structure DriverStep where
  servedDirect : Bool
  manifestUnlinked : Bool
  cppPutFlag : Bool
deriving DecidableEq

/-- ccache.c lines 1891-1958: the value of `put_object_in_manifest`
passed to the cpp-mode `from_cache` call, and whether the manifest was
unlinked, as functions of the direct attempt's results and the
preprocessor-mode object hash. -/
def driver (enableDirect : Bool) (directLookup : Option FileHash)
    (directServes : Bool) (cppHash : FileHash) : DriverStep :=
  if enableDirect then
    match directLookup with
    | some m =>
      if directServes then ⟨true, false, false⟩
      else if m ≠ cppHash then ⟨false, true, true⟩
      else ⟨false, false, false⟩
    | none => ⟨false, false, true⟩
  else ⟨false, false, false⟩

/-! ## process_args (ccache.c lines 1312-1788) -/

/-- Result of `stat` on a path: failure, a regular file, or something
else (directory, device, ...). -/
inductive StatResult
  | statFail
  | regular
  | notRegular
deriving DecidableEq

/-- Configuration `process_args` reads besides the argument vector. -/
structure PACtx where
  argv0 : String
  baseDir : Option String
  cwd : String
  statReg : String → StatResult
  cacheExtension : Option String

/-- Modelled from the spec: `basename` lives in util.c, which is not part
of src/; POSIX semantics (the spec's section 6 "stripping the first
argv ... of the requested name"): the part of the path after the last
slash. -/
def cbasename (s : String) : String :=
  String.mk ((s.data.reverse.takeWhile (fun c => c ≠ Char.ofNat 47)).reverse)

/-- The suffix of `l` starting at its last dot, if any. -/
def lastDotSuffix : List Char → Option (List Char)
  | [] => none
  | c :: rest =>
    match lastDotSuffix rest with
    | some r => some r
    | none => if c = Char.ofNat 46 then some (c :: rest) else none

/-- Modelled from the spec: `get_extension` lives in util.c, which is not
part of src/; per the glossary's fixed extension table it yields the
extension (including the dot) of the last path component, `""` if none. -/
def get_extension (s : String) : String :=
  match lastDotSuffix (cbasename s).data with
  | some e => String.mk e
  | none => ""

/-- Modelled from the spec: `remove_extension` lives in util.c, which is
not part of src/; it removes the `get_extension` suffix (spec section
4.4: the default dependency name is the output name with `.d` in place
of its extension). -/
def remove_extension (s : String) : String :=
  String.mk (s.data.take (strLen s - strLen (get_extension s)))

/-- The extension/language table (ccache.c lines 192-213). -/
def extensions : List (String × String) :=
  [(".c", "c"), (".C", "c++"), (".cc", "c++"), (".CC", "c++"),
   (".cpp", "c++"), (".CPP", "c++"), (".cxx", "c++"), (".CXX", "c++"),
   (".c++", "c++"), (".C++", "c++"), (".i", "cpp-output"),
   (".ii", "c++-cpp-output"), (".mi", "objc-cpp-output"),
   (".mii", "objc++-cpp-output"), (".m", "objective-c"),
   (".M", "objective-c++"), (".mm", "objective-c++")]

/-- The language/intermediate-extension table (ccache.c lines 218-230). -/
def languages : List (String × String) :=
  [("c", ".i"), ("cpp-output", ".i"), ("c++", ".ii"),
   ("c++-cpp-output", ".ii"), ("objective-c", ".mi"),
   ("objc-cpp-output", ".mi"), ("objective-c++", ".mii"),
   ("objc++-cpp-output", ".mii")]

/-- `language_for_file` (ccache.c lines 534-547). -/
def language_for_file (fname : String) : Option String :=
  (extensions.find? (fun pr => pr.1 == get_extension fname)).map (fun pr => pr.2)

/-- `i_extension_for_language` (ccache.c lines 553-567). -/
def i_extension_for_language (language : Option String) : Option String :=
  match language with
  | none => none
  | some l => (languages.find? (fun pr => pr.1 == l)).map (fun pr => pr.2)

/-- `language_is_supported` (ccache.c lines 569-573). -/
def language_is_supported (language : String) : Bool :=
  (i_extension_for_language (some language)).isSome

/-- `language_is_preprocessed` (ccache.c lines 575-580). -/
def language_is_preprocessed (language : String) : Bool :=
  match i_extension_for_language (some language) with
  | none => false
  | some iext => language_for_file iext == some language

/-- The option tables of the classification loop. -/
def tooHardOpts : List String :=
  ["--coverage", "-M", "-MM", "-fbranch-probabilities", "-fprofile-arcs",
   "-fprofile-generate", "-fprofile-use", "-ftest-coverage", "-save-temps"]

def pathRewriteOpts : List String :=
  ["-I", "-idirafter", "-imacros", "-include", "-iprefix", "-isystem"]

def takesArgOpts : List String :=
  ["--param", "-A", "-D", "-G", "-L", "-MF", "-MQ", "-MT", "-U", "-V",
   "-Xassembler", "-Xlinker", "-aux-info", "-b", "-iwithprefix",
   "-iwithprefixbefore", "-u"]

/-- `strchr(s, ',') != NULL`. -/
def hasComma (s : String) : Bool := s.data.contains (Char.ofNat 44)

/-- The mutable locals and globals of the classification loop
(ccache.c lines 1315-1332 and the globals it assigns). -/
structure PAState where
  stripped : List String
  foundC : Bool
  foundS : Bool
  foundArch : Bool
  explicitLanguage : Option String
  inputCharset : Option String
  inputFile : Option String
  outputObj : Option String
  outputDep : Option String
  generatingDependencies : Bool
  depFilenameSpecified : Bool
  depTargetSpecified : Bool
  enableDirect : Bool
  enableUnify : Bool
  compilePP : Bool
deriving DecidableEq

/-- ccache.c lines 1360-1366: `-Xpreprocessor` disables direct mode and
falls through. -/
def paXpre (a : String) (st : PAState) : PAState :=
  if st.enableDirect = true ∧ a = "-Xpreprocessor" then
    { st with enableDirect := false }
  else st

/-- ccache.c lines 1369-1378 (second half): record the first `-arch` and
fall through. -/
def paArch (a : String) (st : PAState) : PAState :=
  if a = "-arch" then { st with foundArch := true } else st

/-- ccache.c lines 1471-1509: the `-MD`/`-MMD`, `-MF`/`-MQ`/`-MT` and
`-Wp,` bookkeeping, all falling through to the remaining tests. -/
def paDeps (ctx : PACtx) (a : String) (next : Option String)
    (st : PAState) : PAState :=
  let st :=
    if a = "-MD" ∨ a = "-MMD" then
      { st with generatingDependencies := true }
    else st
  let st :=
    match next with
    | some v =>
      if a = "-MF" then
        { st with depFilenameSpecified := true,
                  outputDep := some (make_relative_path ctx.baseDir ctx.cwd v) }
      else if a = "-MQ" ∨ a = "-MT" then { st with depTargetSpecified := true }
      else st
    | none => st
  if strStarts a "-Wp," = true then
    if strStarts a "-Wp,-MD," = true ∧ hasComma (strDrop a 8) = false then
      { st with generatingDependencies := true, depFilenameSpecified := true,
                outputDep :=
                  some (make_relative_path ctx.baseDir ctx.cwd (strDrop a 8)) }
    else if strStarts a "-Wp,-MMD," = true ∧
        hasComma (strDrop a 9) = false then
      { st with generatingDependencies := true, depFilenameSpecified := true,
                outputDep :=
                  some (make_relative_path ctx.baseDir ctx.cwd (strDrop a 9)) }
    else if st.enableDirect = true then { st with enableDirect := false }
    else st
  else st

/-- ccache.c lines 1512-1660: the tests from `-finput-charset=` to the
input-file classification. -/
def paTail (ctx : PACtx) (idx : Nat) (a : String) (next : Option String)
    (st : PAState) : Option (PAState × Bool) :=
  if strStarts a "-finput-charset=" = true then
    some ({ st with inputCharset := some a }, false)
  else if a ∈ pathRewriteOpts then
    match next with
    | none => none
    | some v =>
      some ({ st with stripped :=
        st.stripped ++ [a, make_relative_path ctx.baseDir ctx.cwd v] }, true)
  else if strStarts a "-I" = true then
    some ({ st with stripped := st.stripped ++
      [String.mk ("-I".data ++
        (make_relative_path ctx.baseDir ctx.cwd (strDrop a 2)).data)] },
      false)
  else if a ∈ takesArgOpts then
    match next with
    | none => none
    | some v => some ({ st with stripped := st.stripped ++ [a, v] }, true)
  else if strStarts a "-" = true then
    some ({ st with stripped := st.stripped ++ [a] }, false)
  else if ctx.statReg a ≠ StatResult.regular then
    some ({ st with stripped := st.stripped ++ [a] }, false)
  else if idx = 1 ∧ cbasename ctx.argv0 = "distcc" ∧
      language_for_file a = none then
    some ({ st with stripped := st.stripped ++ [a] }, false)
  else if st.inputFile ≠ none then none
  else
    some
      ({ st with inputFile := some (make_relative_path ctx.baseDir ctx.cwd a) },
        false)

/-- ccache.c lines 1380-1660: the tests from `-c` onwards, applied after
the fall-through updates of `paXpre` and `paArch`. -/
def paDispatch (ctx : PACtx) (idx : Nat) (a : String) (next : Option String)
    (st : PAState) : Option (PAState × Bool) :=
  if a = "-c" then
    some ({ st with stripped := st.stripped ++ [a], foundC := true }, false)
  else if a = "-S" then
    some ({ st with stripped := st.stripped ++ [a], foundS := true }, false)
  else if a = "-x" then
    match next with
    | none => none
    | some v =>
      if st.inputFile = none then
        some ({ st with explicitLanguage := some v }, true)
      else some (st, true)
  else if strStarts a "-x" = true then
    if st.inputFile = none then
      some ({ st with explicitLanguage := some (strDrop a 2) }, false)
    else some (st, false)
  else if a = "-o" then
    match next with
    | none => none
    | some v => some ({ st with outputObj := some v }, true)
  else if strStarts a "-o" = true then
    some ({ st with outputObj := some (strDrop a 2) }, false)
  else if strStarts a "-g" = true then
    some ({ st with
        stripped := st.stripped ++ [a],
        enableUnify := if st.enableUnify = true ∧ a ≠ "-g0" then false
          else st.enableUnify,
        compilePP := if a = "-g3" then false else st.compilePP }, false)
  else if a = "--ccache-skip" then
    match next with
    | none => none
    | some v => some ({ st with stripped := st.stripped ++ [v] }, true)
  else paTail ctx idx a next (paDeps ctx a next st)

/-- One iteration of the classification loop (ccache.c lines 1334-1660)
on argument `a` at position `idx`, with `next` the following argument if
any.  Returns `none` when the iteration calls `failed()`, otherwise the
new state and whether the following argument was consumed (`i++`). -/
def paStep (ctx : PACtx) (idx : Nat) (a : String) (next : Option String)
    (st : PAState) : Option (PAState × Bool) :=
  if a = "-E" then none
  else if strStarts a "@" = true ∨ a ∈ tooHardOpts then none
  else if a = "-arch" ∧ st.foundArch = true then none
  else paDispatch ctx idx a next (paArch a (paXpre a st))

/-- The classification loop over the remaining arguments (`idx` is the
C index `i`). -/
def paLoop (ctx : PACtx) : List String → Nat → PAState → Option PAState
  | [], _, st => some st
  | a :: rest, idx, st =>
    match paStep ctx idx a rest.head? st with
    | none => none
    | some (st2, true) =>
      match rest with
      | [] => some st2
      | _ :: rest2 => paLoop ctx rest2 (idx + 2) st2
    | some (st2, false) => paLoop ctx rest (idx + 1) st2

/-- What `process_args` returns through its out-parameters and the
globals it assigns. -/
structure PAResult where
  preprocessorArgs : List String
  compilerArgs : List String
  inputFile : String
  outputObj : String
  outputDep : Option String
  explicitLanguage : Option String
  actualLanguage : String
  directIFile : Bool
  iExtension : String
  generatingDependencies : Bool
  enableDirect : Bool
  enableUnify : Bool
  compilePP : Bool
deriving DecidableEq

/-- ccache.c lines 1668-1670: `-x none` resets the explicit language to
deduction from the file extension. -/
def paExplicitLang (st : PAState) : Option String :=
  if st.explicitLanguage = some "none" then none else st.explicitLanguage

/-- ccache.c lines 1671-1686: the language actually used, `none` when
`process_args` gives up (explicit language unsupported, or no language
deducible from the extension). -/
def paActualLang (st : PAState) (inputFile : String) : Option String :=
  match paExplicitLang st with
  | some l => if language_is_supported l then some l else none
  | none => language_for_file inputFile

/-- ccache.c lines 1713-1727: derive the output name from the input
basename when `-o` was not given (`none` models the "badly formed object
filename" failure). -/
def paOutputName (st : PAState) (inputFile : String) : Option String :=
  match st.outputObj with
  | some o => some o
  | none =>
    match lastDotSuffix (cbasename inputFile).data with
    | none => none
    | some ds =>
      if ds.length ≤ 1 then none
      else
        some (String.mk
          ((cbasename inputFile).data.take
              ((cbasename inputFile).data.length - ds.length + 1) ++
            [if st.foundS then Char.ofNat 115 else Char.ofNat 111]))

/-- ccache.c lines 1729-1788: dependency-output configuration, the
device check, and the final split into `preprocessor_args` and
`compiler_args`. -/
def paFinishCore (ctx : PACtx) (st0 : PAState) (inputFile : String)
    (explicitLang : Option String) (actualLanguage outputObj : String) :
    Option PAResult :=
  let directIFile := language_is_preprocessed actualLanguage
  let iExtension :=
    match ctx.cacheExtension with
    | some e => e
    | none => strDrop ((i_extension_for_language (some actualLanguage)).getD "") 1
  let st1 :=
    if st0.generatingDependencies = true ∧ st0.depFilenameSpecified = false then
      { st0 with
        stripped := st0.stripped ++ ["-MF", remove_extension outputObj ++ ".d"],
        outputDep := some (make_relative_path ctx.baseDir ctx.cwd
          (remove_extension outputObj ++ ".d")) }
    else st0
  let st2 :=
    if st1.generatingDependencies = true ∧ st1.depTargetSpecified = false then
      { st1 with stripped := st1.stripped ++ ["-MT", outputObj] }
    else st1
  if outputObj ≠ "/dev/null" ∧
      ctx.statReg outputObj = StatResult.notRegular then none
  else
    let ppArgs := st2.stripped ++
      (match st2.inputCharset with | some c => [c] | none => []) ++
      (match explicitLang with | some l => ["-x", l] | none => [])
    let compArgs :=
      if st2.compilePP then
        st2.stripped ++
          (match explicitLang with
           | some _ =>
             ["-x", (language_for_file
                 (String.mk (Char.ofNat 46 :: iExtension.data))).getD ""]
           | none => [])
      else ppArgs
    some
      { preprocessorArgs := ppArgs, compilerArgs := compArgs,
        inputFile := inputFile, outputObj := outputObj,
        outputDep := st2.outputDep, explicitLanguage := explicitLang,
        actualLanguage := actualLanguage, directIFile := directIFile,
        iExtension := iExtension,
        generatingDependencies := st2.generatingDependencies,
        enableDirect := st2.enableDirect,
        enableUnify := st2.enableUnify, compilePP := st2.compilePP }

/-- The post-loop part of `process_args` (ccache.c lines 1662-1788):
language resolution, `-c` and `-o` validation, output and dependency
name derivation, and the final argument-list split. -/
def paFinish (ctx : PACtx) (st0 : PAState) : Option PAResult :=
  match st0.inputFile with
  | none => none
  | some inputFile =>
    match paActualLang st0 inputFile with
    | none => none
    | some actualLanguage =>
      if st0.foundC = false then none
      else if st0.outputObj = some "-" then none
      else
        match paOutputName st0 inputFile with
        | none => none
        | some outputObj =>
          paFinishCore ctx st0 inputFile (paExplicitLang st0) actualLanguage
            outputObj

/-- The loop's initial state (ccache.c lines 1315-1332: locals start
cleared, `stripped_args` starts as `[argv[0]]`; the `enable_*` and
`compile_preprocessed_source_code` globals carry their values from
startup). -/
def paInit (ctx : PACtx) (initDirect initUnify initCompilePP : Bool) : PAState :=
  { stripped := [ctx.argv0], foundC := false, foundS := false,
    foundArch := false, explicitLanguage := none, inputCharset := none,
    inputFile := none, outputObj := none, outputDep := none,
    generatingDependencies := false, depFilenameSpecified := false,
    depTargetSpecified := false, enableDirect := initDirect,
    enableUnify := initUnify, compilePP := initCompilePP }

/-- `process_args` (ccache.c lines 1312-1788) on `argv[1..]`
(`ctx.argv0` is `argv[0]`); `none` models `failed()`. -/
def process_args (ctx : PACtx) (initDirect initUnify initCompilePP : Bool)
    (args : List String) : Option PAResult :=
  match paLoop ctx args 1 (paInit ctx initDirect initUnify initCompilePP) with
  | none => none
  | some st => paFinish ctx st

/-! ## Predicates used by the argument-list theorems -/

/-- The options that consume their following argument and place it (or
its base-directory rewriting) verbatim into `stripped_args`:
`--ccache-skip`, the path-rewriting options and the generic
argument-taking options. -/
def consumeAdders : List String :=
  "--ccache-skip" :: (pathRewriteOpts ++ takesArgOpts)

/-- The following argument of a consuming option is not itself the
literal `-o` token (before or after base-directory rewriting). -/
def nextSafe (ctx : PACtx) (a : String) (next : Option String) : Prop :=
  a ∈ consumeAdders → ∀ v, next = some v →
    v ≠ "-o" ∧ make_relative_path ctx.baseDir ctx.cwd v ≠ "-o"

/-- `nextSafe` for every adjacent pair of the argument list. -/
def pairsSafe (ctx : PACtx) (l : List String) : Prop :=
  ∀ n a, l[n]? = some a → nextSafe ctx a (l[n+1]?)

/-- The loop invariant behind the C6 claim: `stripped_args` keeps
`argv[0]` first, records `-c` once seen, never contains a literal `-o`,
and any recorded input charset is a `-finput-charset=` token. -/
def C6Inv (ctx : PACtx) (st : PAState) : Prop :=
  st.stripped.head? = some ctx.argv0 ∧
  (st.foundC = true → "-c" ∈ st.stripped) ∧
  "-o" ∉ st.stripped ∧
  (∀ ch, st.inputCharset = some ch → strStarts ch "-finput-charset=" = true)

/-! ## Concrete fixtures for witnesses and counterexamples -/

/-- An include file whose every filesystem operation succeeds, with
`mtime = 100`. -/
def fiAllOk : FileInfo :=
  ⟨true, true, false, 100, 1, true, false, false, ⟨[1], 1⟩⟩

/-- A run compiling `foo.c` at `time_of_compilation = 100` with no
sloppiness bits. -/
def envC2 : RunEnv := ⟨"foo.c", ⟨false, false, false⟩, 100, fun _ => fiAllOk⟩

/-- Like `envC2` but with input file `other.c`. -/
def envC2b : RunEnv := ⟨"other.c", ⟨false, false, false⟩, 100, fun _ => fiAllOk⟩

/-- Preprocessed output referencing the include file `/b/<a>` under the
base directory `/b`, followed by ordinary source text. -/
def c9Content : List Char := "# 1 \"/b/<a>\"\nx".data

/-- Scanner configuration with base directory and working directory
`/b`. -/
def ctxA : ScanCtx :=
  ⟨some "/b", "/b", ⟨"x.c", ⟨false, false, false⟩, 100, fun _ => fiAllOk⟩⟩

/-- Like `ctxA` but a different run environment (same base and cwd). -/
def ctxB : ScanCtx :=
  ⟨some "/b", "/b", ⟨"y.c", ⟨true, true, true⟩, 0, fun _ =>
    ⟨false, false, false, 0, 0, false, false, false, ⟨[], 0⟩⟩⟩⟩

/-- A `from_cache` environment in which serving succeeds. -/
def fcEnvBase : FCEnv :=
  { mode := FromcacheCallMode.cpp, recache := false, readonly := false,
    generatingDependencies := false, outputIsDevNull := false,
    cachedObjExists := true, cachedDepExists := true,
    copyObjResult := CopyResult.ok, copyDepResult := CopyResult.ok,
    enableDirect := true, includedFiles := some [("a.h", ⟨[1], 1⟩)] }

/-- A `to_cache` environment where the compiler produced no stdout,
exited 1, produced no object, and the stderr file reopens fine. -/
def tcEnvOk : TCEnv :=
  { stdoutStatOk := true, stdoutSize := 0, status := 1,
    cppStderrPresent := false, mergeOpensOk := true, stderrOpenOk := true,
    outputIsDevNull := false, tmpObjReadable := false, moveOutputOk := false,
    errnoEnoent := true, objStatOk := true, objSize := 1,
    stderrStatOk := true, stderrSize := 0, moveStderrToCacheOk := true,
    moveObjToCacheOk := true, finalObjStatOk := true }

/-- An argument-classification context: compiler `cc`, no base
directory, and a filesystem on which only `foo.c` is a regular file. -/
def ctx6 : PACtx :=
  { argv0 := "cc", baseDir := none, cwd := "/w",
    statReg := fun s =>
      if s = "foo.c" then StatResult.regular else StatResult.statFail,
    cacheExtension := none }

/-- A loop state as after classifying `-x c++ -c` with input `foo.c`. -/
def stW6 : PAState :=
  { paInit ctx6 true true true with
      explicitLanguage := some "c++"
      inputFile := some "foo.c"
      foundC := true
      stripped := ["cc", "-c"] }

/-- Like `stW6` with `-x none`. -/
def stW7 : PAState :=
  { paInit ctx6 true true true with
      explicitLanguage := some "none"
      inputFile := some "foo.c"
      foundC := true
      stripped := ["cc", "-c"] }

/-- Like `stW6` with an unsupported explicit language. -/
def stW5 : PAState :=
  { paInit ctx6 true true true with
      explicitLanguage := some "klingon"
      inputFile := some "foo.c"
      foundC := true
      stripped := ["cc", "-c"] }

/-- The classification result for `cc -c foo.c` under `ctx6`. -/
def paResC6 : PAResult :=
  { preprocessorArgs := ["cc", "-c"], compilerArgs := ["cc", "-c"],
    inputFile := "foo.c", outputObj := "foo.o", outputDep := none,
    explicitLanguage := none, actualLanguage := "c", directIFile := false,
    iExtension := "i", generatingDependencies := false, enableDirect := true,
    enableUnify := true, compilePP := true }

/-- The result of `paFinish` on `stW6` (explicit language `c++`). -/
def paResC7x : PAResult :=
  { preprocessorArgs := ["cc", "-c", "-x", "c++"],
    compilerArgs := ["cc", "-c", "-x", "c++-cpp-output"],
    inputFile := "foo.c", outputObj := "foo.o", outputDep := none,
    explicitLanguage := some "c++", actualLanguage := "c++",
    directIFile := false, iExtension := "ii",
    generatingDependencies := false, enableDirect := true,
    enableUnify := true, compilePP := true }

/-- The result of `paFinish` on `stW7` (`-x none`: language deduced). -/
def paResC7n : PAResult :=
  { preprocessorArgs := ["cc", "-c"], compilerArgs := ["cc", "-c"],
    inputFile := "foo.c", outputObj := "foo.o", outputDep := none,
    explicitLanguage := none, actualLanguage := "c", directIFile := false,
    iExtension := "i", generatingDependencies := false, enableDirect := true,
    enableUnify := true, compilePP := true }


/-! # Theorems

Helper lemmas first, then one theorem (with witness or counterexample)
per claim. -/

theorem skipOpts_not_dashL :
    ∀ s ∈ spacedSkipOpts, s ≠ "-L" ∧ strStarts s "-L" = false ∧
      strStarts s "--specs=" = false := by decide

theorem isPrefixOf_two {a b : Char} {l : List Char}
    (h : [a, b].isPrefixOf l = true) : ∃ t, l = a :: b :: t := by
  match l with
  | [] => simp [List.isPrefixOf] at h
  | [x] => simp [List.isPrefixOf] at h
  | x :: y :: t =>
    simp [List.isPrefixOf] at h
    exact ⟨t, by rw [h.1, h.2]⟩

theorem joined_DIU_not_dashL (s : String)
    (h : (strStarts s "-D" || strStarts s "-I" || strStarts s "-U") = true) :
    s ≠ "-L" ∧ strStarts s "-L" = false := by
  simp only [strStarts, Bool.or_eq_true] at h
  have hdata : ∃ c t, s.data = Char.ofNat 45 :: c :: t ∧ c ≠ Char.ofNat 76 := by
    rcases h with (h | h) | h
    · rcases isPrefixOf_two h with ⟨t, ht⟩
      exact ⟨Char.ofNat 68, t, ht, by decide⟩
    · rcases isPrefixOf_two h with ⟨t, ht⟩
      exact ⟨Char.ofNat 73, t, ht, by decide⟩
    · rcases isPrefixOf_two h with ⟨t, ht⟩
      exact ⟨Char.ofNat 85, t, ht, by decide⟩
  rcases hdata with ⟨c, t, ht, hc⟩
  constructor
  · intro he
    rw [String.ext_iff, ht] at he
    simp [show ("-L" : String).data = [Char.ofNat 45, Char.ofNat 76] from rfl]
      at he
    exact hc he.1
  · rw [strStarts, ht]
    simp [List.isPrefixOf, Ne.symm hc]

/-- C1 (counterexample): the claim states that the listed preprocessor
options contribute nothing to the preprocessor-mode hash in both spaced
and joined forms; but the joined form `-includefoo.h` IS hashed in
preprocessor mode (only joined `-D`/`-I`/`-U` are skipped at ccache.c
lines 1006-1011), so an argument list containing it feeds different
bytes to the hash than one without it. -/
theorem C1_counterexample :
    calculateObjectHashArgBytes fs0 false ["cc", "-includefoo.h"] ≠
      calculateObjectHashArgBytes fs0 false ["cc"] := by decide

/-- C1 (amended): in preprocessor mode the fifteen listed preprocessor
options in spaced form (when an argument follows) contribute nothing to
the hash together with that argument, and the joined forms of `-D`, `-I`
and `-U` contribute nothing; in direct mode these same tokens are hashed
(`hash_delimiter "arg"` plus the token with its terminating NUL); and
`-L` — spaced with its following argument, or joined — contributes to
the hash in neither mode. -/
theorem C1_amended (fs : SpecsFS) :
    (∀ s v rest, s ∈ spacedSkipOpts →
        hashArgsLoop fs false (s :: v :: rest) = hashArgsLoop fs false rest) ∧
    (∀ s rest,
        (strStarts s "-D" || strStarts s "-I" || strStarts s "-U") = true →
        s ∉ spacedSkipOpts →
        hashArgsLoop fs false (s :: rest) = hashArgsLoop fs false rest) ∧
    (∀ s rest, strStarts s "-L" = false → strStarts s "--specs=" = false →
        hashArgsLoop fs true (s :: rest) =
          delimBytes "arg" ++ stringBytes s ++ hashArgsLoop fs true rest) ∧
    (∀ v rest directMode,
        hashArgsLoop fs directMode ("-L" :: v :: rest) =
          hashArgsLoop fs directMode rest) ∧
    (∀ s rest directMode, strStarts s "-L" = true → s ≠ "-L" →
        hashArgsLoop fs directMode (s :: rest) =
          hashArgsLoop fs directMode rest) := by
  refine ⟨?_, ?_, ?_, ?_, ?_⟩
  · intro s v rest hs
    obtain ⟨h1, h2, _⟩ := skipOpts_not_dashL s hs
    simp [hashArgsLoop, h1, h2, hs]
  · intro s rest hDIU hnot
    obtain ⟨h1, h2⟩ := joined_DIU_not_dashL s hDIU
    cases rest with
    | nil => simp [hashArgsLoop, h2, hDIU]
    | cons b r2 => simp [hashArgsLoop, h1, h2, hnot, hDIU]
  · intro s rest hL hspecs
    cases rest with
    | nil => simp [hashArgsLoop, hashArgBody, hL, hspecs]
    | cons b r2 =>
      have h1 : s ≠ "-L" := by
        intro he
        rw [he] at hL
        simp [strStarts, List.isPrefixOf] at hL
      simp [hashArgsLoop, hashArgBody, h1, hL, hspecs]
  · intro v rest directMode
    simp [hashArgsLoop]
  · intro s rest directMode hL h1
    cases rest with
    | nil => simp [hashArgsLoop, hL]
    | cons b r2 => simp [hashArgsLoop, h1, hL]

/-- C1 witness: the amended statement applied to `-include x.h`,
`-DFOO` (both modes), `-L /lib` and `-L/lib`. -/
theorem C1_amended_witness :
    hashArgsLoop fs0 false ["-include", "x.h", "-O2"] =
        hashArgsLoop fs0 false ["-O2"] ∧
    hashArgsLoop fs0 false ["-DFOO", "-O2"] = hashArgsLoop fs0 false ["-O2"] ∧
    hashArgsLoop fs0 true ["-DFOO", "-O2"] =
        delimBytes "arg" ++ stringBytes "-DFOO" ++
          hashArgsLoop fs0 true ["-O2"] ∧
    hashArgsLoop fs0 true ["-L", "/lib", "-O2"] =
        hashArgsLoop fs0 true ["-O2"] ∧
    hashArgsLoop fs0 false ["-L/lib", "-O2"] = hashArgsLoop fs0 false ["-O2"] :=
  ⟨(C1_amended fs0).1 "-include" "x.h" ["-O2"] (by decide),
   (C1_amended fs0).2.1 "-DFOO" ["-O2"] (by decide) (by decide),
   (C1_amended fs0).2.2.1 "-DFOO" ["-O2"] (by decide) (by decide),
   (C1_amended fs0).2.2.2.1 "/lib" ["-O2"] true,
   (C1_amended fs0).2.2.2.2 "-L/lib" ["-O2"] false (by decide) (by decide)⟩

/-- C2 (counterexample): the claim quantifies over every include path
passed to `remember_include_file` with `mtime ≥ time_of_compilation` and
the sloppiness bit unset, but a path equal to the input file is ignored
at ccache.c line 339 before the mtime check, leaving direct mode
enabled. -/
theorem C2_counterexample :
    envC2.sloppy.includeFileMtime = false ∧
    envC2.timeOfCompilation ≤ (envC2.fileInfo "foo.c").mtime ∧
    (remember_include_file envC2 ⟨true, some []⟩ "foo.c" 5).enableDirect =
      true := by decide

/-- C2 (amended): for every include path that reaches the mtime check of
`remember_include_file` — the include set exists, the path is not
angle-bracket quoted, differs from the input file, is not already
recorded, and opens and stats successfully as a non-directory — if the
`SLOPPY_INCLUDE_FILE_MTIME` bit is unset and `mtime ≥
time_of_compilation`, then direct mode is disabled and the path is not
inserted into the include set (so it can never reach the manifest). -/
theorem C2_amended (env : RunEnv) (st : PPState)
    (files : List (String × FileHash)) (path : String) (pathLen : Nat)
    (h0 : st.includedFiles = some files)
    (h1 : ¬(2 ≤ pathLen ∧ cstrGet path 0 = Char.ofNat 60 ∧
        cstrGet path (pathLen - 1) = Char.ofNat 62))
    (h2 : path ≠ env.inputFile)
    (h3 : (files.find? (fun pr => pr.1 == path)) = none)
    (h4 : (env.fileInfo path).openOk = true)
    (h5 : (env.fileInfo path).fstatOk = true)
    (h6 : (env.fileInfo path).isDir = false)
    (h7 : env.sloppy.includeFileMtime = false)
    (h8 : env.timeOfCompilation ≤ (env.fileInfo path).mtime) :
    (remember_include_file env st path pathLen).enableDirect = false ∧
    (remember_include_file env st path pathLen).includedFiles = some files := by
  simp [remember_include_file, h0, h1, h2, h3, h4, h5, h6, h7, h8]

/-- C2 witness: a fresh include file `a.h` with `mtime =
time_of_compilation` disables direct mode and is not recorded. -/
theorem C2_amended_witness :
    (remember_include_file envC2b ⟨true, some []⟩ "a.h" 3).enableDirect =
        false ∧
    (remember_include_file envC2b ⟨true, some []⟩ "a.h" 3).includedFiles =
      some [] :=
  C2_amended envC2b ⟨true, some []⟩ [] "a.h" 3 rfl (by decide) (by decide) rfl
    rfl rfl rfl rfl (by decide)


theorem scanAux_trace_congr (ctx1 ctx2 : ScanCtx) (data : List Char)
    (hb : ctx1.baseDir = ctx2.baseDir) (hc : ctx1.cwd = ctx2.cwd) :
    ∀ fuel q p st1 st2,
      (scanAux ctx1 data fuel q p st1).trace =
        (scanAux ctx2 data fuel q p st2).trace := by
  intro fuel
  induction fuel with
  | zero => intro q p st1 st2; rfl
  | succ fuel ih =>
    intro q p st1 st2
    simp only [scanAux]
    by_cases h1 : q + 7 < data.length
    · simp only [if_pos h1]
      by_cases h2 : isDirectiveAt data q
      · simp only [if_pos h2]
        by_cases h3 : data.length ≤ findQuote data q + 1
        · simp only [if_pos h3]
        · simp only [if_neg h3]
          rw [hb, hc]
          rw [ih]
      · simp only [if_neg h2]
        exact ih _ _ _ _
    · simp only [if_neg h1]

/-- C8 (confirmed): `process_preprocessed_file` is deterministic — the
byte sequence it feeds to the hash depends only on the file contents,
the configured base directory and the working directory; in particular
it does not depend on the direct-mode state (`enable_direct`,
`included_files`) or on anything `remember_include_file` observes, so
two runs over the same content and path configuration produce the same
digest. -/
theorem C8_determinism (ctx1 ctx2 : ScanCtx) (data : List Char)
    (st1 st2 : PPState)
    (hb : ctx1.baseDir = ctx2.baseDir) (hc : ctx1.cwd = ctx2.cwd) :
    (process_preprocessed_file ctx1 data st1).trace =
      (process_preprocessed_file ctx2 data st2).trace := by
  unfold process_preprocessed_file
  exact scanAux_trace_congr ctx1 ctx2 data hb hc _ 0 0 _ _

/-- C8 witness: two scans of the same content under the same base and
working directory, with different run environments and direct-mode
states, feed identical bytes to the hash. -/
theorem C8_determinism_witness :
    (process_preprocessed_file ctxA c9Content ⟨true, none⟩).trace =
      (process_preprocessed_file ctxB c9Content ⟨false, some []⟩).trace :=
  C8_determinism ctxA ctxB c9Content ⟨true, none⟩ ⟨false, some []⟩ rfl rfl

/-- C9 (code bug): scanning `# 1 "/b/<a>"` with base directory `/b` and
working directory `/b` calls `remember_include_file` with the rewritten
path `<a>` (strlen 3, buffer of 4 bytes) but `path_len = 6`, the length
of the original quoted span `/b/<a>`; since the rewritten path starts
with `<` and `path_len ≥ 2`, the angle-bracket test at ccache.c line 334
reads `path[5]`, beyond the 4-byte buffer — an out-of-bounds read, so
the accesses are NOT all within bounds as the claim states. -/
theorem C9_oob :
    (process_preprocessed_file ctxA c9Content ⟨true, none⟩).rememberCalls =
      [("<a>", 6)] ∧
    bracketAccessSafe "<a>" 6 = false ∧
    strLen "<a>" = 3 := by decide

/-- C3 (confirmed): when the direct attempt obtained an object hash from
the manifest but could not serve from the cache, and the preprocessor-
mode object hash differs from it, the driver unlinks the manifest and
passes `put_object_in_manifest = true` to the cpp-mode `from_cache` call
(ccache.c lines 1932-1958). -/
theorem C3_manifest_disagreement (m cppHash : FileHash) (h : m ≠ cppHash) :
    driver true (some m) false cppHash = ⟨false, true, true⟩ := by
  simp [driver, h]

/-- C3 witness: concrete differing hashes. -/
theorem C3_manifest_disagreement_witness :
    driver true (some ⟨[0], 0⟩) false ⟨[1], 1⟩ = ⟨false, true, true⟩ :=
  C3_manifest_disagreement ⟨[0], 0⟩ ⟨[1], 1⟩ (by decide)

/-- C4 (counterexample): the claim says `manifest_put` is called exactly
when `enable_direct`, `put_object_in_manifest` and a non-empty include
set hold; here all three hold and the serve succeeds, yet `manifest_put`
is not called because `CCACHE_READONLY` is set (ccache.c line 1226),
a condition the claim omits. -/
theorem C4_counterexample :
    (from_cache { fcEnvBase with readonly := true } true).outcome =
        FCOutcome.exited ∧
    ({ fcEnvBase with readonly := true } : FCEnv).enableDirect = true ∧
    ({ fcEnvBase with readonly := true } : FCEnv).includedFiles =
      some [("a.h", ⟨[1], 1⟩)] ∧
    (from_cache { fcEnvBase with readonly := true } true).manifestPutCalled =
      false := by decide

/-- C4 (amended): on every successful serve (`from_cache` reaches
`exit(0)`), `manifest_put` is called exactly when `enable_direct` is set,
`put_object_in_manifest` is set, the `included_files` table exists (it
may be empty — the code tests the pointer, not emptiness), and
`CCACHE_READONLY` is unset. -/
theorem C4_amended (e : FCEnv) (put : Bool)
    (h : (from_cache e put).outcome = FCOutcome.exited) :
    (from_cache e put).manifestPutCalled =
      (e.enableDirect && put && e.includedFiles.isSome && !e.readonly) := by
  unfold from_cache at h ⊢
  split_ifs at h ⊢ <;> simp_all

/-- C4 witness: a successful serve with all conditions true calls
`manifest_put`. -/
theorem C4_amended_witness :
    (from_cache fcEnvBase true).manifestPutCalled =
      (fcEnvBase.enableDirect && true && fcEnvBase.includedFiles.isSome &&
        !fcEnvBase.readonly) :=
  C4_amended fcEnvBase true (by decide)

/-- C10 (confirmed): in every `from_cache` call that reaches the copy
step, an ENOENT failure while copying or hard-linking the cached object
(or, in direct mode with dependencies, the cached dependency file)
unlinks the cached object, cached stderr and cached dependency files and
returns to the caller as a miss; only a non-ENOENT failure routes to the
fallback executor (`failed()`), ccache.c lines 1121-1176. -/
theorem C10_enoent (e : FCEnv) (put : Bool)
    (h1 : ¬(e.mode ≠ FromcacheCallMode.compiled ∧ e.recache = true))
    (h2 : e.cachedObjExists = true)
    (h3 : ¬((e.generatingDependencies = true ∧
        e.mode = FromcacheCallMode.direct) ∧ e.cachedDepExists = false)) :
    (e.outputIsDevNull = false ∧ e.copyObjResult = CopyResult.enoent →
      from_cache e put = ⟨FCOutcome.ret, false, true, true, true⟩) ∧
    (e.outputIsDevNull = false ∧ e.copyObjResult = CopyResult.otherErr →
      from_cache e put = ⟨FCOutcome.fallback, false, false, false, false⟩) ∧
    ((e.outputIsDevNull = true ∨ e.copyObjResult = CopyResult.ok) →
      (e.generatingDependencies = true ∧ e.mode = FromcacheCallMode.direct) →
      e.copyDepResult = CopyResult.enoent →
      from_cache e put = ⟨FCOutcome.ret, false, true, true, true⟩) ∧
    ((e.outputIsDevNull = true ∨ e.copyObjResult = CopyResult.ok) →
      (e.generatingDependencies = true ∧ e.mode = FromcacheCallMode.direct) →
      e.copyDepResult = CopyResult.otherErr →
      from_cache e put = ⟨FCOutcome.fallback, false, false, false, false⟩) := by
  refine ⟨?_, ?_, ?_, ?_⟩ <;> intro hA <;>
    first
      | (unfold from_cache; split_ifs <;> simp_all)
      | (intro hB hC; unfold from_cache; split_ifs <;> simp_all)

/-- C10 witness: an ENOENT object-copy failure produces a miss with the
three cache files unlinked. -/
theorem C10_enoent_witness :
    from_cache { fcEnvBase with copyObjResult := CopyResult.enoent } false =
      ⟨FCOutcome.ret, false, true, true, true⟩ :=
  (C10_enoent { fcEnvBase with copyObjResult := CopyResult.enoent } false
    (by decide) (by decide) (by decide)).1 (by decide)

/-- C5 (counterexample): the claim covers every run where the real
compiler exits non-zero; but when the failing compiler also wrote to its
standard output, `to_cache` gives up at ccache.c lines 616-623 and
re-execs the real compiler via `failed()` instead of writing the
captured stderr to fd 2 and exiting with the compiler status. -/
theorem C5_counterexample :
    ({ tcEnvOk with stdoutSize := 5 } : TCEnv).status = 1 ∧
    to_cache { tcEnvOk with stdoutSize := 5 } =
      ⟨TCExit.fallback, false, false, false⟩ := by decide

/-- C5 (amended): when the real compiler exits non-zero, produced no
standard output, the captured stderr file can be reopened, and the
produced object can be disposed of (the output is `/dev/null`, or the
temporary object moves into place, or the failure was ENOENT), `to_cache`
writes the captured stderr to file descriptor 2 and exits with the
compiler's status, storing nothing in the cache; otherwise it falls back
to re-executing the real compiler. -/
theorem C5_amended (e : TCEnv)
    (h1 : e.stdoutStatOk = true) (h2 : e.stdoutSize = 0)
    (h3 : e.cppStderrPresent = true → e.mergeOpensOk = true)
    (h4 : e.status ≠ 0)
    (h5 : e.stderrOpenOk = true)
    (h6 : e.outputIsDevNull = true ∨
      (e.tmpObjReadable = true ∧ e.moveOutputOk = true) ∨
      e.errnoEnoent = true) :
    to_cache e = ⟨TCExit.exited e.status, true, false, false⟩ := by
  unfold to_cache
  split_ifs <;> simp_all

/-- C5 witness: a failed compilation (status 1, no object produced,
errno ENOENT) forwards stderr and exits 1 without caching. -/
theorem C5_amended_witness :
    to_cache tcEnvOk = ⟨TCExit.exited 1, true, false, false⟩ :=
  C5_amended tcEnvOk rfl rfl (by decide) (by decide) rfl (by decide)


theorem pairsSafe_tail (ctx : PACtx) (a : String) (l : List String)
    (h : pairsSafe ctx (a :: l)) : pairsSafe ctx l := by
  intro n x hx
  have h2 := h (n + 1) x (by simpa using hx)
  simpa using h2

theorem paLoop_invariant (ctx : PACtx) (P : PAState → Prop)
    (hstep : ∀ idx a next st st' c, nextSafe ctx a next →
        paStep ctx idx a next st = some (st', c) → P st → P st') :
    ∀ (n : Nat) (l : List String), l.length ≤ n → ∀ idx st st',
      pairsSafe ctx l → paLoop ctx l idx st = some st' → P st → P st' := by
  intro n
  induction n with
  | zero =>
    intro l hl idx st st' hp hrun hP
    have hnil : l = [] := List.eq_nil_of_length_eq_zero (Nat.le_zero.mp hl)
    subst hnil
    simp [paLoop] at hrun
    exact hrun ▸ hP
  | succ n ih =>
    intro l hl idx st st' hp hrun hP
    match l with
    | [] =>
      simp [paLoop] at hrun
      exact hrun ▸ hP
    | a :: rest =>
      have hns : nextSafe ctx a rest.head? := by
        have h0 := hp 0 a (by simp)
        have he : (a :: rest)[1]? = rest.head? := by
          cases rest <;> simp
        rwa [he] at h0
      rw [paLoop] at hrun
      cases hps : paStep ctx idx a rest.head? st with
      | none => rw [hps] at hrun; simp at hrun
      | some pr =>
        rcases pr with ⟨st2, c⟩
        rw [hps] at hrun
        have hP2 := hstep idx a rest.head? st st2 c hns hps hP
        cases c with
        | false =>
          simp only [] at hrun
          have hlen : rest.length ≤ n := by
            simp [List.length_cons] at hl
            omega
          exact ih rest hlen (idx + 1) st2 st' (pairsSafe_tail ctx a rest hp)
            hrun hP2
        | true =>
          cases rest with
          | nil =>
            simp only [Option.some.injEq] at hrun
            exact hrun ▸ hP2
          | cons b rest2 =>
            simp only [] at hrun
            have hlen : rest2.length ≤ n := by
              simp [List.length_cons] at hl
              omega
            exact ih rest2 hlen (idx + 2) st2 st'
              (pairsSafe_tail ctx b rest2 (pairsSafe_tail ctx a (b :: rest2) hp))
              hrun hP2

theorem head?_append {l : List String} (δ : List String) {x : String}
    (h : l.head? = some x) : (l ++ δ).head? = some x := by
  cases l with
  | nil => simp at h
  | cons y t => simpa using h

theorem mkDashI_ne (t : List Char) : String.mk (("-I").data ++ t) ≠ "-o" := by
  intro h
  rw [String.ext_iff] at h
  simp [show ("-I" : String).data = [Char.ofNat 45, Char.ofNat 73] from rfl,
    show ("-o" : String).data = [Char.ofNat 45, Char.ofNat 111] from rfl] at h

theorem mkDashI_ne2 (t : List Char) :
    ("-o" : String) ≠ String.mk ('-' :: 'I' :: t) := by
  intro h
  rw [String.ext_iff] at h
  simp [show ("-o" : String).data = [Char.ofNat 45, Char.ofNat 111] from rfl] at h

theorem pathRewriteOpts_facts :
    ∀ x ∈ pathRewriteOpts, x ≠ "-o" ∧ x ∈ consumeAdders := by decide

theorem takesArgOpts_facts :
    ∀ x ∈ takesArgOpts, x ≠ "-o" ∧ x ∈ consumeAdders := by decide

theorem paXpre_C6Inv (ctx : PACtx) (a : String) (st : PAState)
    (h : C6Inv ctx st) : C6Inv ctx (paXpre a st) := by
  unfold paXpre
  split_ifs <;> simpa [C6Inv] using h

theorem paArch_C6Inv (ctx : PACtx) (a : String) (st : PAState)
    (h : C6Inv ctx st) : C6Inv ctx (paArch a st) := by
  unfold paArch
  split_ifs <;> simpa [C6Inv] using h

theorem paDeps_stripped (ctx : PACtx) (a : String) (next : Option String)
    (st : PAState) : (paDeps ctx a next st).stripped = st.stripped := by
  unfold paDeps
  cases next <;>
    simp [apply_ite PAState.stripped]

theorem paDeps_foundC (ctx : PACtx) (a : String) (next : Option String)
    (st : PAState) : (paDeps ctx a next st).foundC = st.foundC := by
  unfold paDeps
  cases next <;>
    simp [apply_ite PAState.foundC]

theorem paDeps_inputCharset (ctx : PACtx) (a : String) (next : Option String)
    (st : PAState) : (paDeps ctx a next st).inputCharset = st.inputCharset := by
  unfold paDeps
  cases next <;>
    simp [apply_ite PAState.inputCharset]

theorem paDeps_C6Inv (ctx : PACtx) (a : String) (next : Option String)
    (st : PAState) (h : C6Inv ctx st) : C6Inv ctx (paDeps ctx a next st) := by
  unfold C6Inv at h ⊢
  rw [paDeps_stripped, paDeps_foundC, paDeps_inputCharset]
  exact h

set_option maxHeartbeats 1600000 in
theorem paTail_C6Inv (ctx : PACtx) (idx : Nat) (a : String)
    (next : Option String) (st st' : PAState) (c : Bool)
    (ha : a ≠ "-o")
    (hns : a ∈ consumeAdders → ∀ v, next = some v →
      v ≠ "-o" ∧ make_relative_path ctx.baseDir ctx.cwd v ≠ "-o")
    (hstep : paTail ctx idx a next st = some (st', c)) (hP : C6Inv ctx st) :
    C6Inv ctx st' := by
  obtain ⟨hHead, hC, hO, hCh⟩ := hP
  have ha2 : ("-o" : String) ≠ a := Ne.symm ha
  unfold paTail at hstep
  cases next with
  | none =>
    split_ifs at hstep <;>
      simp only [Option.some.injEq, Prod.mk.injEq] at hstep <;>
      obtain ⟨rfl, rfl⟩ := hstep <;>
      refine ⟨?_, ?_, ?_, ?_⟩ <;>
      simp_all [head?_append, List.mem_append, mkDashI_ne, mkDashI_ne2]
  | some v =>
    have hvPath : a ∈ pathRewriteOpts →
        ("-o" : String) ≠ make_relative_path ctx.baseDir ctx.cwd v := by
      intro hm
      exact Ne.symm (hns ((pathRewriteOpts_facts a hm).2) v rfl).2
    have hvArg : a ∈ takesArgOpts → ("-o" : String) ≠ v := by
      intro hm
      exact Ne.symm (hns ((takesArgOpts_facts a hm).2) v rfl).1
    have haPath : a ∈ pathRewriteOpts → ("-o" : String) ≠ a := by
      intro hm
      exact Ne.symm (pathRewriteOpts_facts a hm).1
    have haArg : a ∈ takesArgOpts → ("-o" : String) ≠ a := by
      intro hm
      exact Ne.symm (takesArgOpts_facts a hm).1
    split_ifs at hstep <;>
      simp only [Option.some.injEq, Prod.mk.injEq] at hstep <;>
      obtain ⟨rfl, rfl⟩ := hstep <;>
      refine ⟨?_, ?_, ?_, ?_⟩ <;>
      simp_all [head?_append, List.mem_append, mkDashI_ne, mkDashI_ne2,
        pathRewriteOpts_facts, takesArgOpts_facts]

set_option maxHeartbeats 1600000 in
theorem paDispatch_C6Inv (ctx : PACtx) (idx : Nat) (a : String)
    (next : Option String) (st st' : PAState) (c : Bool)
    (hns : nextSafe ctx a next)
    (hstep : paDispatch ctx idx a next st = some (st', c))
    (hP : C6Inv ctx st) : C6Inv ctx st' := by
  obtain ⟨hHead, hC, hO, hCh⟩ := hP
  unfold paDispatch at hstep
  cases next with
  | none =>
    split_ifs at hstep
    all_goals
      first
      | (exact paTail_C6Inv ctx idx a none st st' c (by assumption)
          (fun hm v hv => by simp at hv) hstep ⟨hHead, hC, hO, hCh⟩)
      | (exact paTail_C6Inv ctx idx a none (paDeps ctx a none st) st' c
          (by assumption) (fun hm v hv => by simp at hv) hstep
          (paDeps_C6Inv ctx a none st ⟨hHead, hC, hO, hCh⟩))
      | (simp only [Option.some.injEq, Prod.mk.injEq] at hstep
         obtain ⟨rfl, rfl⟩ := hstep
         refine ⟨?_, ?_, ?_, ?_⟩ <;>
           simp_all [head?_append, List.mem_append] <;>
           (try (intro he; exact absurd he.symm (by assumption))))
      | exact absurd hstep (by simp)
  | some v =>
    have hSkip : a = "--ccache-skip" → ("-o" : String) ≠ v := by
      intro hEq
      subst hEq
      exact Ne.symm (hns (by decide) v rfl).1
    split_ifs at hstep
    all_goals
      first
      | (exact paTail_C6Inv ctx idx a (some v) (paDeps ctx a (some v) st) st' c
          (by assumption) (fun hm w hw => hns hm w hw) hstep
          (paDeps_C6Inv ctx a (some v) st ⟨hHead, hC, hO, hCh⟩))
      | (simp only [Option.some.injEq, Prod.mk.injEq] at hstep
         obtain ⟨rfl, rfl⟩ := hstep
         refine ⟨?_, ?_, ?_, ?_⟩ <;>
           simp_all [head?_append, List.mem_append] <;>
           (try (intro he; exact absurd he.symm (by assumption))))
      | exact absurd hstep (by simp)

theorem paStep_C6Inv (ctx : PACtx) (idx : Nat) (a : String)
    (next : Option String) (st st' : PAState) (c : Bool)
    (hns : nextSafe ctx a next)
    (hstep : paStep ctx idx a next st = some (st', c))
    (hP : C6Inv ctx st) : C6Inv ctx st' := by
  unfold paStep at hstep
  split_ifs at hstep
  all_goals
    first
    | exact absurd hstep (by simp)
    | exact paDispatch_C6Inv ctx idx a next (paArch a (paXpre a st)) st' c hns
        hstep (paArch_C6Inv ctx a (paXpre a st) (paXpre_C6Inv ctx a st hP))

theorem strAppend_data (a b : String) : (a ++ b).data = a.data ++ b.data := by
  cases a
  cases b
  rfl

theorem ne_o_heads {c : Char} {t : List Char} {s : String}
    (h : s.data = Char.ofNat 45 :: c :: t) (hc : c ≠ Char.ofNat 111) :
    ("-o" : String) ≠ s := by
  intro he
  rw [String.ext_iff, h] at he
  simp [show ("-o" : String).data = [Char.ofNat 45, Char.ofNat 111] from rfl]
    at he
  exact hc he.1.symm

theorem isPrefixOf_cons2 {a b : Char} {p l : List Char}
    (h : (a :: b :: p).isPrefixOf l = true) : ∃ t, l = a :: b :: t := by
  match l with
  | [] => simp [List.isPrefixOf] at h
  | [x] => simp [List.isPrefixOf] at h
  | x :: y :: t =>
    simp [List.isPrefixOf] at h
    exact ⟨t, by rw [h.1, h.2.1]⟩

theorem charset_ne_o {ch : String} (h : strStarts ch "-finput-charset=" = true) :
    ("-o" : String) ≠ ch := by
  unfold strStarts at h
  rw [show ("-finput-charset=" : String).data =
    Char.ofNat 45 :: Char.ofNat 102 :: ("input-charset=" : String).data
    from rfl] at h
  obtain ⟨t, ht⟩ := isPrefixOf_cons2 h
  exact ne_o_heads ht (by decide)

theorem supported_ne_o {l : String} (h : language_is_supported l = true) :
    ("-o" : String) ≠ l := by
  cases hf : languages.find? (fun pr => pr.1 == l) with
  | none =>
    simp only [language_is_supported, i_extension_for_language, hf,
      Option.map_none', Option.isSome_none] at h
    exact absurd h (by decide)
  | some pr =>
    have hm := List.mem_of_find?_eq_some hf
    have hp : pr.1 = l := by simpa using List.find?_some hf
    have hall : ∀ x ∈ languages, ("-o" : String) ≠ x.1 := by decide
    rw [← hp]
    exact hall pr hm

theorem langFile_getD_ne_o (s : String) :
    ("-o" : String) ≠ (language_for_file s).getD "" := by
  unfold language_for_file
  cases hf : extensions.find? (fun pr => pr.1 == get_extension s) with
  | none => simp
  | some pr =>
    have hm := List.mem_of_find?_eq_some hf
    have hall : ∀ x ∈ extensions, ("-o" : String) ≠ x.2 := by decide
    simpa using hall pr hm

theorem depDefault_ne_o (o : String) :
    ("-o" : String) ≠ remove_extension o ++ ".d" := by
  intro he
  have hd := congrArg String.data he
  rw [strAppend_data] at hd
  rw [show ("-o" : String).data = [Char.ofNat 45, Char.ofNat 111] from rfl,
    show (".d" : String).data = [Char.ofNat 46, Char.ofNat 100] from rfl] at hd
  have hlen := congrArg List.length hd
  simp only [List.length_append, List.length_cons, List.length_nil] at hlen
  have h0 : (remove_extension o).data.length = 0 := by omega
  rw [List.eq_nil_of_length_eq_zero h0] at hd
  simp at hd

theorem paLoop_C6Inv (ctx : PACtx) (l : List String) (idx : Nat)
    (st st' : PAState) (hp : pairsSafe ctx l)
    (hrun : paLoop ctx l idx st = some st') (h : C6Inv ctx st) :
    C6Inv ctx st' :=
  paLoop_invariant ctx (C6Inv ctx)
    (fun idx a next s s' c hns hstep hP =>
      paStep_C6Inv ctx idx a next s s' c hns hstep hP)
    l.length l le_rfl idx st st' hp hrun h

set_option maxHeartbeats 3200000 in
theorem paFinishCore_C6 (ctx : PACtx) (st : PAState) (inputFile : String)
    (explicitLang : Option String) (actualLanguage outputObj : String)
    (r : PAResult)
    (h : paFinishCore ctx st inputFile explicitLang actualLanguage outputObj =
      some r)
    (hHead : st.stripped.head? = some ctx.argv0)
    (hC : st.foundC = true → "-c" ∈ st.stripped)
    (hO : "-o" ∉ st.stripped)
    (hCh : ∀ ch, st.inputCharset = some ch → strStarts ch "-finput-charset=" = true)
    (hEL : ∀ l, explicitLang = some l → language_is_supported l = true)
    (hOut : ("-o" : String) ≠ outputObj) :
    r.preprocessorArgs.head? = some ctx.argv0 ∧
    r.compilerArgs.head? = some ctx.argv0 ∧
    (st.foundC = true → "-c" ∈ r.preprocessorArgs ∧ "-c" ∈ r.compilerArgs) ∧
    "-o" ∉ r.preprocessorArgs ∧ "-o" ∉ r.compilerArgs := by
  have hMF : ("-o" : String) ≠ "-MF" := by decide
  have hMT : ("-o" : String) ≠ "-MT" := by decide
  have hX : ("-o" : String) ≠ "-x" := by decide
  have hDep := depDefault_ne_o outputObj
  have hLF := langFile_getD_ne_o
    (String.mk (Char.ofNat 46 ::
      (match ctx.cacheExtension with
       | some e => e
       | none =>
         strDrop ((i_extension_for_language (some actualLanguage)).getD "") 1).data))
  unfold paFinishCore at h
  cases hch : st.inputCharset with
  | none =>
    cases hel : explicitLang with
    | none =>
      rw [hch, hel] at h
      split_ifs at h <;>
        simp only [Option.some.injEq] at h <;> subst h <;>
        (try split_ifs) <;>
        refine ⟨?_, ?_, ?_, ?_, ?_⟩ <;>
        simp_all [head?_append, List.mem_append]
    | some l =>
      have hsup : ("-o" : String) ≠ l := supported_ne_o (hEL l hel)
      rw [hch, hel] at h
      split_ifs at h <;>
        simp only [Option.some.injEq] at h <;> subst h <;>
        (try split_ifs) <;>
        refine ⟨?_, ?_, ?_, ?_, ?_⟩ <;>
        simp_all [head?_append, List.mem_append]
  | some ch =>
    have hchar : ("-o" : String) ≠ ch := charset_ne_o (hCh ch hch)
    cases hel : explicitLang with
    | none =>
      rw [hch, hel] at h
      split_ifs at h <;>
        simp only [Option.some.injEq] at h <;> subst h <;>
        (try split_ifs) <;>
        refine ⟨?_, ?_, ?_, ?_, ?_⟩ <;>
        simp_all [head?_append, List.mem_append]
    | some l =>
      have hsup : ("-o" : String) ≠ l := supported_ne_o (hEL l hel)
      rw [hch, hel] at h
      split_ifs at h <;>
        simp only [Option.some.injEq] at h <;> subst h <;>
        (try split_ifs) <;>
        refine ⟨?_, ?_, ?_, ?_, ?_⟩ <;>
        simp_all [head?_append, List.mem_append]

theorem paFinishCore_fields (ctx : PACtx) (st : PAState) (inputFile : String)
    (el : Option String) (al ob : String) (r : PAResult)
    (h : paFinishCore ctx st inputFile el al ob = some r) :
    r.outputObj = ob ∧ r.actualLanguage = al ∧ r.explicitLanguage = el := by
  unfold paFinishCore at h
  split_ifs at h <;> simp only [Option.some.injEq] at h <;> subst h <;>
    (try split_ifs) <;> simp

/-- C6 (amended): for every invocation that `process_args` classifies
successfully, provided `argv[0]` is not the literal `-o`, no
argument-consuming option (`--ccache-skip`, the path-rewriting options,
or the argument-taking options) is immediately followed by a token that
is — or rewrites to — the literal `-o`, and the captured output path is
not the literal `-o`: both `preprocessor_args` and `compiler_args` start
with `argv[0]`, contain `-c` (successful classification implies `-c` was
seen), and contain no `-o` token. -/
theorem C6_amended (ctx : PACtx) (d u cp : Bool) (args : List String)
    (r : PAResult)
    (ha0 : ctx.argv0 ≠ "-o")
    (hpairs : pairsSafe ctx args)
    (hrun : process_args ctx d u cp args = some r)
    (hout : r.outputObj ≠ "-o") :
    r.preprocessorArgs.head? = some ctx.argv0 ∧
    r.compilerArgs.head? = some ctx.argv0 ∧
    ("-c" ∈ args → "-c" ∈ r.preprocessorArgs ∧ "-c" ∈ r.compilerArgs) ∧
    "-o" ∉ r.preprocessorArgs ∧ "-o" ∉ r.compilerArgs := by
  unfold process_args at hrun
  cases hl : paLoop ctx args 1 (paInit ctx d u cp) with
  | none => rw [hl] at hrun; exact Option.noConfusion hrun
  | some st =>
    rw [hl] at hrun
    replace hrun : paFinish ctx st = some r := hrun
    have hInit : C6Inv ctx (paInit ctx d u cp) := by
      refine ⟨by simp [paInit], by simp [paInit], ?_, by simp [paInit]⟩
      simp [paInit]
      exact fun he => ha0 he.symm
    have hInv : C6Inv ctx st := paLoop_C6Inv ctx args 1 _ st hpairs hl hInit
    obtain ⟨hHead, hCmem, hO, hCh⟩ := hInv
    unfold paFinish at hrun
    split at hrun
    · exact Option.noConfusion hrun
    next inputFile hInp =>
      split at hrun
      · exact Option.noConfusion hrun
      next actual hAL =>
        split_ifs at hrun with hFC hDash
        all_goals try exact Option.noConfusion hrun
        split at hrun
        · exact Option.noConfusion hrun
        next outputObj hON =>
            have hFields := paFinishCore_fields ctx st inputFile
              (paExplicitLang st) actual outputObj r hrun
            have hOut2 : ("-o" : String) ≠ outputObj := by
              rw [← hFields.1]
              exact fun he => hout he.symm
            have hEL : ∀ l, paExplicitLang st = some l →
                language_is_supported l = true := by
              intro l hta
              unfold paActualLang at hAL
              rw [hta] at hAL
              replace hAL : (if language_is_supported l = true then some l
                else none) = some actual := hAL
              by_cases hs : language_is_supported l = true
              · exact hs
              · rw [if_neg hs] at hAL
                exact absurd hAL (by simp)
            have hFin := paFinishCore_C6 ctx st inputFile
              (paExplicitLang st) actual outputObj r hrun hHead hCmem hO
              hCh hEL hOut2
            have hFCtrue : st.foundC = true := by simpa using hFC
            exact ⟨hFin.1, hFin.2.1, fun _ => hFin.2.2.1 hFCtrue,
              hFin.2.2.2.1, hFin.2.2.2.2⟩


/-- C6 (counterexample): the claim says neither resulting list contains
an `-o` token; but `--ccache-skip -o` places a literal `-o` into
`stripped_args` verbatim (ccache.c lines 1458-1466), so both lists of
this successfully classified invocation contain `-o`. -/
theorem C6_counterexample :
    (process_args ctx6 true true true
        ["--ccache-skip", "-o", "-c", "foo.c"]).map
      (fun r => r.preprocessorArgs) = some ["cc", "-o", "-c"] ∧
    (process_args ctx6 true true true
        ["--ccache-skip", "-o", "-c", "foo.c"]).map
      (fun r => r.compilerArgs) = some ["cc", "-o", "-c"] := by decide

theorem pairsSafe_c_foo (l : List String)
    (hl : ∀ a ∈ l, a ∉ consumeAdders) : pairsSafe ctx6 l := by
  intro n a ha hmem v hv
  exact absurd hmem (hl a (List.getElem?_mem ha))

/-- C6 witness: the amended statement applied to `cc -c foo.c`. -/
theorem C6_amended_witness :
    paResC6.preprocessorArgs.head? = some ctx6.argv0 ∧
    paResC6.compilerArgs.head? = some ctx6.argv0 ∧
    ("-c" ∈ (["-c", "foo.c"] : List String) →
      "-c" ∈ paResC6.preprocessorArgs ∧ "-c" ∈ paResC6.compilerArgs) ∧
    "-o" ∉ paResC6.preprocessorArgs ∧ "-o" ∉ paResC6.compilerArgs :=
  C6_amended ctx6 true true true ["-c", "foo.c"] paResC6 (by decide)
    (pairsSafe_c_foo ["-c", "foo.c"] (by decide)) (by decide) (by decide)


theorem dashX_token_facts {a : String} (hx : strStarts a "-x" = true) :
    a ≠ "-E" ∧ strStarts a "@" = false ∧ a ∉ tooHardOpts ∧
    a ≠ "-Xpreprocessor" ∧ a ≠ "-arch" ∧ a ≠ "-c" ∧ a ≠ "-S" ∧
    a ≠ "-o" ∧ strStarts a "-o" = false ∧ strStarts a "-g" = false ∧
    a ≠ "--ccache-skip" := by
  have hdata : ∃ t, a.data = Char.ofNat 45 :: Char.ofNat 120 :: t := by
    have hx2 := hx
    unfold strStarts at hx2
    rw [show ("-x" : String).data = [Char.ofNat 45, Char.ofNat 120] from rfl]
      at hx2
    exact isPrefixOf_two hx2
  obtain ⟨t, ht⟩ := hdata
  have hlit : ∀ (lit : String), strStarts lit "-x" = false → a ≠ lit := by
    intro lit hl he
    rw [he, hl] at hx
    exact absurd hx (by decide)
  refine ⟨hlit _ (by decide), ?_, ?_, hlit _ (by decide), hlit _ (by decide),
    hlit _ (by decide), hlit _ (by decide), hlit _ (by decide), ?_, ?_,
    hlit _ (by decide)⟩
  · unfold strStarts
    rw [show ("@" : String).data = [Char.ofNat 64] from rfl, ht]
    simp [List.isPrefixOf]
  · intro hmem
    have hall : ∀ x ∈ tooHardOpts, strStarts x "-x" = false := by decide
    rw [hall a hmem] at hx
    exact absurd hx (by decide)
  · unfold strStarts
    rw [show ("-o" : String).data = [Char.ofNat 45, Char.ofNat 111] from rfl, ht]
    simp [List.isPrefixOf]
  · unfold strStarts
    rw [show ("-g" : String).data = [Char.ofNat 45, Char.ofNat 103] from rfl, ht]
    simp [List.isPrefixOf]

theorem paXpre_inputFile (a : String) (st : PAState) :
    (paXpre a st).inputFile = st.inputFile := by
  unfold paXpre
  split_ifs <;> rfl

theorem paArch_inputFile (a : String) (st : PAState) :
    (paArch a st).inputFile = st.inputFile := by
  unfold paArch
  split_ifs <;> rfl

theorem paXpre_explicit (a : String) (st : PAState) :
    (paXpre a st).explicitLanguage = st.explicitLanguage := by
  unfold paXpre
  split_ifs <;> rfl

theorem paArch_explicit (a : String) (st : PAState) :
    (paArch a st).explicitLanguage = st.explicitLanguage := by
  unfold paArch
  split_ifs <;> rfl

theorem paDeps_explicit (ctx : PACtx) (a : String) (next : Option String)
    (st : PAState) :
    (paDeps ctx a next st).explicitLanguage = st.explicitLanguage := by
  unfold paDeps
  cases next <;> simp [apply_ite PAState.explicitLanguage]

theorem paTail_explicit (ctx : PACtx) (idx : Nat) (a : String)
    (next : Option String) (st st' : PAState) (c : Bool)
    (h : paTail ctx idx a next st = some (st', c)) :
    st'.explicitLanguage = st.explicitLanguage := by
  unfold paTail at h
  cases next <;> split_ifs at h <;>
    first
    | exact Option.noConfusion h
    | (simp only [Option.some.injEq, Prod.mk.injEq] at h
       rw [← h.1])

set_option maxHeartbeats 1600000 in
theorem paDispatch_explicit_inp (ctx : PACtx) (idx : Nat) (a : String)
    (next : Option String) (st st' : PAState) (c : Bool)
    (hInp : st.inputFile ≠ none)
    (h : paDispatch ctx idx a next st = some (st', c)) :
    st'.explicitLanguage = st.explicitLanguage := by
  unfold paDispatch at h
  cases next <;> split_ifs at h <;>
    first
    | exact Option.noConfusion h
    | exact absurd (by assumption) hInp
    | (simp only [Option.some.injEq, Prod.mk.injEq] at h
       rw [← h.1])
    | (rw [paTail_explicit ctx idx a _ (paDeps ctx a _ st) st' c h,
        paDeps_explicit])

set_option maxHeartbeats 1600000 in
theorem paDispatch_explicit_notx (ctx : PACtx) (idx : Nat) (a : String)
    (next : Option String) (st st' : PAState) (c : Bool)
    (ha : a ≠ "-x") (hsx : strStarts a "-x" = false)
    (h : paDispatch ctx idx a next st = some (st', c)) :
    st'.explicitLanguage = st.explicitLanguage := by
  unfold paDispatch at h
  cases next <;> split_ifs at h <;>
    first
    | exact Option.noConfusion h
    | exact absurd (by assumption) ha
    | exact absurd (by assumption : strStarts a "-x" = true) (by simp [hsx])
    | (simp only [Option.some.injEq, Prod.mk.injEq] at h
       rw [← h.1])
    | (rw [paTail_explicit ctx idx a _ (paDeps ctx a _ st) st' c h,
        paDeps_explicit])

theorem paStep_explicit_inp (ctx : PACtx) (idx : Nat) (a : String)
    (next : Option String) (st st' : PAState) (c : Bool)
    (hInp : st.inputFile ≠ none)
    (h : paStep ctx idx a next st = some (st', c)) :
    st'.explicitLanguage = st.explicitLanguage := by
  unfold paStep at h
  split_ifs at h
  all_goals
    first
    | exact Option.noConfusion h
    | (have h2 := paDispatch_explicit_inp ctx idx a next (paArch a (paXpre a st))
        st' c (by rw [paArch_inputFile, paXpre_inputFile]; exact hInp) h
       rw [h2, paArch_explicit, paXpre_explicit])

theorem paStep_explicit_notx (ctx : PACtx) (idx : Nat) (a : String)
    (next : Option String) (st st' : PAState) (c : Bool)
    (ha : a ≠ "-x") (hsx : strStarts a "-x" = false)
    (h : paStep ctx idx a next st = some (st', c)) :
    st'.explicitLanguage = st.explicitLanguage := by
  unfold paStep at h
  split_ifs at h
  all_goals
    first
    | exact Option.noConfusion h
    | (have h2 := paDispatch_explicit_notx ctx idx a next
        (paArch a (paXpre a st)) st' c ha hsx h
       rw [h2, paArch_explicit, paXpre_explicit])

theorem paStep_joined_x (ctx : PACtx) (idx : Nat) (a : String)
    (next : Option String) (st st' : PAState) (c : Bool)
    (hx : strStarts a "-x" = true) (ha : a ≠ "-x")
    (hInp : st.inputFile = none)
    (h : paStep ctx idx a next st = some (st', c)) :
    st'.explicitLanguage = some (strDrop a 2) := by
  obtain ⟨f1, f2, f3, f4, f5, f6, f7, f8, f9, f10, f11⟩ := dashX_token_facts hx
  unfold paStep at h
  rw [if_neg f1] at h
  rw [if_neg (by simp [f2, f3])] at h
  rw [if_neg (fun hc => f5 hc.1)] at h
  unfold paDispatch at h
  rw [if_neg f6, if_neg f7, if_neg ha, if_pos hx] at h
  rw [if_pos (by rw [paArch_inputFile, paXpre_inputFile]; exact hInp)] at h
  simp only [Option.some.injEq, Prod.mk.injEq] at h
  rw [← h.1]

theorem paStep_spaced_x (ctx : PACtx) (idx : Nat) (v : String)
    (st st' : PAState) (c : Bool)
    (hInp : st.inputFile = none)
    (h : paStep ctx idx "-x" (some v) st = some (st', c)) :
    st'.explicitLanguage = some v ∧ c = true := by
  have hA : strStarts "-x" "@" = false := by decide
  have hB : ("-x" : String) ∉ tooHardOpts := by decide
  simp only [paStep, paDispatch, paXpre, paArch] at h
  simp [hInp, hA, hB] at h
  obtain ⟨h1, h2⟩ := h
  exact ⟨by rw [← h1], h2⟩

theorem paFinish_unsupported (ctx : PACtx) (st : PAState) (l : String)
    (hEx : st.explicitLanguage = some l) (hl : l ≠ "none")
    (hsup : language_is_supported l = false) : paFinish ctx st = none := by
  unfold paFinish
  cases hInp : st.inputFile with
  | none => rfl
  | some inp =>
    have hne : ¬(st.explicitLanguage = some "none") := by
      rw [hEx]
      simp [hl]
    have hAL : paActualLang st inp = none := by
      unfold paActualLang paExplicitLang
      rw [if_neg hne, hEx]
      simp [hsup]
    simp [hAL]

theorem paFinish_actual (ctx : PACtx) (st : PAState) (r : PAResult)
    (h : paFinish ctx st = some r) :
    ∃ inp, st.inputFile = some inp ∧
      paActualLang st inp = some r.actualLanguage := by
  unfold paFinish at h
  split at h
  · exact Option.noConfusion h
  next inp hInp =>
    split at h
    · exact Option.noConfusion h
    next actual hAL =>
      split_ifs at h
      all_goals try exact Option.noConfusion h
      split at h
      · exact Option.noConfusion h
      next ob hON =>
        have hf := (paFinishCore_fields ctx st inp (paExplicitLang st) actual
          ob r h).2.1
        exact ⟨inp, hInp, by rw [hf]; exact hAL⟩

theorem paFinish_explicit_wins (ctx : PACtx) (st : PAState) (r : PAResult)
    (l : String) (hEx : st.explicitLanguage = some l) (hl : l ≠ "none")
    (h : paFinish ctx st = some r) : r.actualLanguage = l := by
  obtain ⟨inp, hInp, hAL⟩ := paFinish_actual ctx st r h
  unfold paActualLang paExplicitLang at hAL
  rw [if_neg (by rw [hEx]; simp [hl]), hEx] at hAL
  replace hAL : (if language_is_supported l = true then some l else none) =
      some r.actualLanguage := hAL
  by_cases hs : language_is_supported l = true
  · rw [if_pos hs] at hAL
    exact (Option.some.injEq _ _ ▸ hAL).symm
  · rw [if_neg hs] at hAL
    exact Option.noConfusion hAL

theorem paFinish_deduced (ctx : PACtx) (st : PAState) (r : PAResult)
    (inp : String) (hInp : st.inputFile = some inp)
    (hEo : st.explicitLanguage = none ∨ st.explicitLanguage = some "none")
    (h : paFinish ctx st = some r) :
    language_for_file inp = some r.actualLanguage := by
  obtain ⟨inp2, hInp2, hAL⟩ := paFinish_actual ctx st r h
  rw [hInp] at hInp2
  obtain rfl : inp = inp2 := by
    simpa using hInp2
  have hpe : paExplicitLang st = none := by
    unfold paExplicitLang
    rcases hEo with h1 | h1
    · rw [if_neg (by rw [h1]; simp), h1]
    · rw [if_pos h1]
  unfold paActualLang at hAL
  rw [hpe] at hAL
  exact hAL

/-- C7 (confirmed): the language used for the input file is governed by
`-x` as the claim states — (1) a spaced `-x lang` before the input file
sets the explicit language to `lang` (overwriting any earlier value, so
the last one wins) and consumes the next argument; (2) so does a joined
`-xlang`; (3) once the input file is seen, no argument changes the
explicit language; (4) no token other than an `-x` form changes it;
(5) an explicit language other than `none` that is not in the fixed
supported-language table makes `process_args` fail (fallback to the real
compiler); (6) an explicit language other than `none` is the language
used; (7) with no `-x`, or with a final `-x none`, the language is
deduced from the input file's extension. -/
theorem C7_language_selection (ctx : PACtx) :
    (∀ idx v st st' c, st.inputFile = none →
        paStep ctx idx "-x" (some v) st = some (st', c) →
        st'.explicitLanguage = some v ∧ c = true) ∧
    (∀ idx a next st st' c, strStarts a "-x" = true → a ≠ "-x" →
        st.inputFile = none → paStep ctx idx a next st = some (st', c) →
        st'.explicitLanguage = some (strDrop a 2)) ∧
    (∀ idx a next st st' c, st.inputFile ≠ none →
        paStep ctx idx a next st = some (st', c) →
        st'.explicitLanguage = st.explicitLanguage) ∧
    (∀ idx a next st st' c, a ≠ "-x" → strStarts a "-x" = false →
        paStep ctx idx a next st = some (st', c) →
        st'.explicitLanguage = st.explicitLanguage) ∧
    (∀ st l, st.explicitLanguage = some l → l ≠ "none" →
        language_is_supported l = false → paFinish ctx st = none) ∧
    (∀ st r l, st.explicitLanguage = some l → l ≠ "none" →
        paFinish ctx st = some r → r.actualLanguage = l) ∧
    (∀ st r inp, st.inputFile = some inp →
        (st.explicitLanguage = none ∨ st.explicitLanguage = some "none") →
        paFinish ctx st = some r →
        language_for_file inp = some r.actualLanguage) := by
  refine ⟨?_, ?_, ?_, ?_, ?_, ?_, ?_⟩
  · exact fun idx v st st' c hInp h =>
      paStep_spaced_x ctx idx v st st' c hInp h
  · exact fun idx a next st st' c hx ha hInp h =>
      paStep_joined_x ctx idx a next st st' c hx ha hInp h
  · exact fun idx a next st st' c hInp h =>
      paStep_explicit_inp ctx idx a next st st' c hInp h
  · exact fun idx a next st st' c ha hsx h =>
      paStep_explicit_notx ctx idx a next st st' c ha hsx h
  · exact fun st l hEx hl hsup => paFinish_unsupported ctx st l hEx hl hsup
  · exact fun st r l hEx hl h => paFinish_explicit_wins ctx st r l hEx hl h
  · exact fun st r inp hInp hEo h => paFinish_deduced ctx st r inp hInp hEo h

/-- C7 witness: each part of the language-selection theorem applied to a
concrete invocation under `ctx6`. -/
theorem C7_language_selection_witness :
    (({ paInit ctx6 true true true with
          explicitLanguage := some "c++" } : PAState).explicitLanguage =
        some "c++" ∧ true = true) ∧
    ({ paInit ctx6 true true true with
        explicitLanguage := some (strDrop "-xc" 2) } : PAState).explicitLanguage =
      some (strDrop "-xc" 2) ∧
    stW6.explicitLanguage = stW6.explicitLanguage ∧
    ({ paInit ctx6 true true true with
        stripped := ["cc", "-O2"] } : PAState).explicitLanguage =
      (paInit ctx6 true true true).explicitLanguage ∧
    paFinish ctx6 stW5 = none ∧
    paResC7x.actualLanguage = "c++" ∧
    language_for_file "foo.c" = some paResC7n.actualLanguage :=
  ⟨(C7_language_selection ctx6).1 1 "c++" (paInit ctx6 true true true)
      { paInit ctx6 true true true with explicitLanguage := some "c++" } true
      rfl (by decide),
   (C7_language_selection ctx6).2.1 1 "-xc" none (paInit ctx6 true true true)
      { paInit ctx6 true true true with explicitLanguage := some (strDrop "-xc" 2) }
      false (by decide) (by decide) rfl (by decide),
   (C7_language_selection ctx6).2.2.1 3 "-x" (some "c") stW6 stW6 true
      (by decide) (by decide),
   (C7_language_selection ctx6).2.2.2.1 1 "-O2" none
      (paInit ctx6 true true true)
      { paInit ctx6 true true true with stripped := ["cc", "-O2"] } false
      (by decide) (by decide) (by decide),
   (C7_language_selection ctx6).2.2.2.2.1 stW5 "klingon" rfl (by decide)
      (by decide),
   (C7_language_selection ctx6).2.2.2.2.2.1 stW6 paResC7x "c++" rfl
      (by decide) (by decide),
   (C7_language_selection ctx6).2.2.2.2.2.2 stW7 paResC7n "foo.c" rfl
      (Or.inr rfl) (by decide)⟩

end Ccache
